import Mathlib

/-!
Shallow embedding of the storefront script `project.fewdl/js.for shope.js`.

JavaScript objects used as string-keyed maps are modelled as association
lists `List (String × α)`: property insertion appends a new key at the end,
assignment to an existing key updates it in place, and `delete` removes it,
matching JS enumeration order (all keys involved are non-numeric strings).
JS numbers holding cart quantities and money amounts are modelled as `Int`
(all arithmetic performed on them in the source is integer arithmetic);
the 32-bit wrap-around of the bitwise hash is made explicit with `% 2^32`.
-/

namespace SecureShop

/-- First-match lookup of a key in an association list: `m[k]` returning
`undefined` as `none`. -/
def getKey (k : String) : List (String × α) → Option α
  | [] => none
  | e :: rest => if e.1 = k then some e.2 else getKey k rest

/-- JS `m[k] = v`: overwrite in place if the key exists, else append. -/
def setKey (k : String) (v : α) : List (String × α) → List (String × α)
  | [] => [(k, v)]
  | e :: rest => if e.1 = k then (k, v) :: rest else e :: setKey k v rest

/-- JS `delete m[k]`: drop the entry with key `k`. -/
def eraseKey (k : String) : List (String × α) → List (String × α)
  | [] => []
  | e :: rest => if e.1 = k then rest else e :: eraseKey k rest

@[simp] theorem getKey_nil (k : String) : getKey k ([] : List (String × α)) = none := rfl

@[simp] theorem getKey_cons (k : String) (e : String × α) (rest : List (String × α)) :
    getKey k (e :: rest) = if e.1 = k then some e.2 else getKey k rest := rfl

@[simp] theorem setKey_nil (k : String) (v : α) : setKey k v ([] : List (String × α)) = [(k, v)] := rfl

@[simp] theorem setKey_cons (k : String) (v : α) (e : String × α) (rest : List (String × α)) :
    setKey k v (e :: rest) = if e.1 = k then (k, v) :: rest else e :: setKey k v rest := rfl

@[simp] theorem eraseKey_nil (k : String) : eraseKey k ([] : List (String × α)) = [] := rfl

@[simp] theorem eraseKey_cons (k : String) (e : String × α) (rest : List (String × α)) :
    eraseKey k (e :: rest) = if e.1 = k then rest else e :: eraseKey k rest := rfl

theorem getKey_setKey (k k' : String) (v : α) (m : List (String × α)) :
    getKey k (setKey k' v m) = if k' = k then some v else getKey k m := by
  induction m with
  | nil => simp [getKey, setKey]
  | cons e rest ih =>
      simp only [setKey]
      by_cases h1 : e.1 = k'
      · by_cases h2 : k' = k
        · simp [getKey, h1, h2]
        · have he : e.1 ≠ k := fun h => h2 (h1.symm.trans h)
          simp [getKey, h1, h2, he]
      · by_cases h2 : k' = k
        · rw [h2] at ih ⊢
          have he : e.1 ≠ k := fun h => h1 (h.trans h2.symm)
          simp [getKey, he, ih]
        · simp [getKey, h1, h2, ih]

theorem mem_setKey (a : String × α) (k : String) (v : α) (m : List (String × α)) :
    a ∈ setKey k v m → a = (k, v) ∨ a ∈ m := by
  induction m with
  | nil => simp [setKey]
  | cons e rest ih =>
      by_cases h1 : e.1 = k <;> simp only [setKey, h1, if_true, if_false, List.mem_cons]
      · rintro (h | h) <;> simp [h]
      · rintro (h | h)
        · simp [h]
        · rcases ih h with h' | h' <;> simp [h']

theorem mem_eraseKey (a : String × α) (k : String) (m : List (String × α)) :
    a ∈ eraseKey k m → a ∈ m := by
  induction m with
  | nil => simp [eraseKey]
  | cons e rest ih =>
      by_cases h1 : e.1 = k <;> simp only [eraseKey, h1, if_true, if_false, List.mem_cons]
      · intro h; simp [h]
      · rintro (h | h)
        · simp [h]
        · simp [ih h]

theorem getKey_mem (k : String) (v : α) (m : List (String × α)) :
    getKey k m = some v → (k, v) ∈ m := by
  induction m with
  | nil => simp [getKey]
  | cons e rest ih =>
      obtain ⟨k0, v0⟩ := e
      by_cases h1 : k0 = k
      · subst h1
        intro h
        simp only [getKey_cons] at h
        simp at h
        subst h
        exact List.mem_cons_self _ _
      · simp only [getKey, h1, if_false]
        intro h; exact List.mem_cons_of_mem _ (ih h)

theorem getKey_eq_none_iff (k : String) (m : List (String × α)) :
    getKey k m = none ↔ k ∉ m.map Prod.fst := by
  induction m with
  | nil => simp [getKey]
  | cons e rest ih =>
      by_cases h1 : e.1 = k
      · simp [getKey, h1]
      · have h1' : k ≠ e.1 := fun hh => h1 hh.symm
        simp [getKey, h1, h1', ih]

theorem getKey_eraseKey_ne (k k' : String) (m : List (String × α)) (h : k' ≠ k) :
    getKey k' (eraseKey k m) = getKey k' m := by
  induction m with
  | nil => simp
  | cons e rest ih =>
      by_cases h1 : e.1 = k
      · have he : e.1 ≠ k' := fun hh => h (hh.symm.trans h1)
        have hkk : k ≠ k' := fun hh => h hh.symm
        simp [eraseKey, getKey, h1, he, hkk]
      · by_cases h2 : e.1 = k' <;> simp [eraseKey, getKey, h1, h2, h, ih]

theorem getKey_eraseKey_self (k : String) (m : List (String × α))
    (hnd : (m.map Prod.fst).Nodup) : getKey k (eraseKey k m) = none := by
  induction m with
  | nil => simp
  | cons e rest ih =>
      simp only [List.map_cons, List.nodup_cons] at hnd
      by_cases h1 : e.1 = k
      · simp only [eraseKey, h1, if_true]
        rw [getKey_eq_none_iff]
        exact h1 ▸ hnd.1
      · simp [eraseKey, getKey, h1, ih hnd.2]

/-! ### Product catalog (`PRODUCTS`) -/

/-- An entry of the fixed, frozen product catalog. -/
structure Product where
  id : String
  name : String
  category : String
  price : Nat
deriving DecidableEq

/-- The fixed catalog from the top of the script. -/
def PRODUCTS : List Product :=
  [ ⟨"p1", "Wireless Headphones", "electronics", 3999⟩,
    ⟨"p2", "Mechanical Keyboard", "electronics", 5499⟩,
    ⟨"p3", "Smartwatch Classic", "electronics", 6999⟩,
    ⟨"p4", "Premium Hoodie", "fashion", 1999⟩,
    ⟨"p5", "Running Shoes", "fashion", 2999⟩,
    ⟨"p6", "Cotton T‑Shirt", "fashion", 899⟩,
    ⟨"p7", "Table Lamp", "home", 1299⟩,
    ⟨"p8", "Non‑stick Pan Set", "home", 2499⟩,
    ⟨"p9", "Wall Art Frame", "home", 799⟩ ]

/-- The cart: JS object mapping product id to quantity (`Int`, as JS numbers). -/
abbrev Cart := List (String × Int)

/-- JS `addToCart`: `cart[productId] = (cart[productId] || 0) + 1`.  For an `Int`
quantity `q`, `q || 0` equals `q` when `q ≠ 0` and `0` when `q = 0`, so it is
`(getKey id cart).getD 0` in both the present and the absent case. -/
def addToCart (productId : String) (cart : Cart) : Cart :=
  setKey productId ((getKey productId cart).getD 0 + 1) cart

/-- JS `updateCartItem`: returns early when `cart[productId]` is falsy, i.e. the
key is absent or its quantity is `0`; otherwise deletes the entry when
`q + delta ≤ 0` and stores `q + delta` when it is positive. -/
def updateCartItem (productId : String) (delta : Int) (cart : Cart) : Cart :=
  match getKey productId cart with
  | none => cart
  | some q =>
      if q = 0 then cart
      else if q + delta ≤ 0 then eraseKey productId cart
      else setKey productId (q + delta) cart

/-- A row of `cartItemsWithDetails`: the spread product plus `qty` and
`lineTotal`. -/
structure CartItem where
  id : String
  name : String
  category : String
  price : Nat
  qty : Int
  lineTotal : Int
deriving DecidableEq

/-- JS `cartItemsWithDetails`: joins cart entries against `PRODUCTS`, dropping
entries whose id is not in the catalog (`filter(Boolean)` after the `map`). -/
def cartItemsWithDetails (cart : Cart) : List CartItem :=
  cart.filterMap fun e =>
    match PRODUCTS.find? (fun p => p.id == e.1) with
    | none => none
    | some p => some ⟨p.id, p.name, p.category, p.price, e.2, (p.price : Int) * e.2⟩

/-- Result of `cartTotals`. -/
structure Totals where
  items : List CartItem
  subtotal : Int
deriving DecidableEq

/-- JS `cartTotals`: the joined items plus their `reduce`-summed `lineTotal`s. -/
def cartTotals (cart : Cart) : Totals :=
  let items := cartItemsWithDetails cart
  ⟨items, items.foldl (fun sum item => sum + item.lineTotal) 0⟩

/-! ### Hashing (`hashString`), email normalization, input sanitization -/

/-- The UTF-16 code units of one code point, as `charCodeAt` enumerates them. -/
def utf16Units (c : Char) : List Nat :=
  if c.toNat < 65536 then [c.toNat]
  else [55296 + (c.toNat - 65536) / 1024, 56320 + (c.toNat - 65536) % 1024]

/-- One loop iteration of `hashString`: `hash = (hash * 33) ^ str.charCodeAt(i)`.
JS keeps `hash` a 32-bit signed integer (the `^` applies `ToInt32`); on the
unsigned residue mod `2^32` that is multiplication mod `2^32` followed by
bitwise xor, since `hash * 33` stays below `2^53` and is computed exactly. -/
def hashStep (h : Nat) (u : Nat) : Nat :=
  ((h * 33) % 4294967296) ^^^ u

/-- The numeric value `hash >>> 0` at the end of `hashString`. -/
def hashNat (s : String) : Nat :=
  ((s.data.map utf16Units).flatten).foldl hashStep 5381

/-- JS `hashString`: DJB2-style digest rendered as lowercase hex
(`(hash >>> 0).toString(16)`). -/
def hashString (s : String) : String :=
  String.mk (Nat.toDigits 16 (hashNat s))

/-- The characters `String.prototype.trim` strips: ECMAScript WhiteSpace and
LineTerminator code points. -/
def isJsWhitespace (c : Char) : Bool :=
  decide (c.toNat = 9) || decide (c.toNat = 10) || decide (c.toNat = 11) ||
  decide (c.toNat = 12) || decide (c.toNat = 13) || decide (c.toNat = 32) ||
  decide (c.toNat = 160) || decide (c.toNat = 5760) ||
  (decide (8192 ≤ c.toNat) && decide (c.toNat ≤ 8202)) ||
  decide (c.toNat = 8232) || decide (c.toNat = 8233) ||
  decide (c.toNat = 8239) || decide (c.toNat = 8287) ||
  decide (c.toNat = 12288) || decide (c.toNat = 65279)

/-- JS `str.trim()`: drop leading and trailing JS whitespace. -/
def trimString (s : String) : String :=
  String.mk
    (((s.data.dropWhile isJsWhitespace).reverse.dropWhile isJsWhitespace).reverse)

/-- JS `str.toLowerCase()`, on the ASCII range (`Char.toLower` per code point;
the emails and passwords handled by the claims stay within ASCII). -/
def toLowerString (s : String) : String :=
  String.mk (s.data.map Char.toLower)

/-- JS `email.trim().toLowerCase()`. -/
def normalizeEmail (email : String) : String :=
  toLowerString (trimString email)

/-- JS `sanitizeInput`: trim, then delete the control characters matched by
`/[\u0000-\u001F\u007F-\u009F]/g`. -/
def sanitizeInput (s : String) : String :=
  String.mk ((trimString s).data.filter fun c =>
    decide (¬(c.toNat ≤ 31 ∨ (127 ≤ c.toNat ∧ c.toNat ≤ 159))))

/-! ### Orders -/

/-- The sanitized shipping block of an order. -/
structure Shipping where
  name : String
  address : String
  city : String
  zip : String
  phone : String
deriving DecidableEq

/-- One `{id, name, qty, price}` record of `order.items`. -/
structure OrderItem where
  id : String
  name : String
  qty : Int
  price : Nat
deriving DecidableEq

/-- An order as built by the checkout submit handler. -/
structure Order where
  id : Nat
  createdAt : Nat
  total : Int
  items : List OrderItem
  shipping : Shipping
deriving DecidableEq

/-! ### Application state

The script's module-level mutable bindings (`users`, `currentUser`, `cart`,
`csrfToken`) together with the four `localStorage` blobs they are persisted
to.  The in-memory bindings are mirrored into their `stored*` counterpart at
exactly the points where the source calls `saveState`; the order mapping
exists only in storage (`loadOrders`/`saveOrder` read and write it through
`loadState`/`saveState` on every call). -/

/-- The mutable state of the script, in-memory bindings plus storage. -/
structure AppState where
  users : List (String × String)
  currentUser : Option String
  cart : Cart
  csrfToken : String
  storedUsers : List (String × String)
  storedCurrentUser : Option String
  storedCart : Cart
  storedOrders : List (String × List Order)
deriving DecidableEq

/-- The two exception messages thrown by the auth functions. -/
inductive AuthError where
  | duplicateUser
  | invalidCredentials
deriving DecidableEq

/-- JS `setCurrentUser`: sets the binding and persists it (the UI refresh calls
are presentation-layer). -/
def setCurrentUser (email : String) (s : AppState) : AppState :=
  { s with currentUser := some email, storedCurrentUser := some email }

/-- JS `registerUser`: throws `DuplicateUser` before any mutation when the
normalized email is taken; otherwise stores the digest and persists `users`. -/
def registerUser (email password : String) (s : AppState) :
    Except AuthError Unit × AppState :=
  let normalizedEmail := normalizeEmail email
  match getKey normalizedEmail s.users with
  | some _ => (.error .duplicateUser, s)
  | none =>
      let users2 := setKey normalizedEmail (hashString password) s.users
      (.ok (), { s with users := users2, storedUsers := users2 })

/-- JS `loginUser`: throws `InvalidCredentials` (before any mutation) when the
record is missing or the digest mismatches; otherwise `setCurrentUser`. -/
def loginUser (email password : String) (s : AppState) :
    Except AuthError Unit × AppState :=
  let normalizedEmail := normalizeEmail email
  match getKey normalizedEmail s.users with
  | none => (.error .invalidCredentials, s)
  | some storedHash =>
      if hashString password = storedHash then
        (.ok (), setCurrentUser normalizedEmail s)
      else (.error .invalidCredentials, s)

/-- JS `logoutUser`: clears the identity and persists the clear. -/
def logoutUser (s : AppState) : AppState :=
  { s with currentUser := none, storedCurrentUser := none }

/-- JS `loadOrders`: the stored order list of the current user, `[]` when
`!currentUser` — absent or the falsy empty string. -/
def loadOrders (s : AppState) : List Order :=
  match s.currentUser with
  | none => []
  | some u => if u = "" then [] else (getKey u s.storedOrders).getD []

/-- JS `saveOrder`: no-op when `!currentUser` (absent, or the falsy empty
string); otherwise `unshift` the order onto the current user's stored list
and persist the whole mapping. -/
def saveOrder (order : Order) (s : AppState) : AppState :=
  match s.currentUser with
  | none => s
  | some u =>
      if u = "" then s
      else
        let userOrders := (getKey u s.storedOrders).getD []
        { s with storedOrders := setKey u (order :: userOrders) s.storedOrders }

/-- JS `clearCart`: `cart = {}` plus persistence. -/
def clearCart (s : AppState) : AppState :=
  { s with cart := [], storedCart := [] }

/-! ### Checkout submission -/

/-- The non-deterministic / DOM-provided inputs of one submit event:
the hidden field's token, `checkoutForm.checkValidity()`, the five shipping
field values, and the values produced by `Math.random`, `Date.now` and
`generateCsrfToken` during the handler (at most one token regeneration
happens on any one path). -/
structure CheckoutInput where
  formToken : String
  formValid : Bool
  shipName : String
  shipAddress : String
  shipCity : String
  shipZip : String
  shipPhone : String
  orderId : Nat
  nowMs : Nat
  freshToken : String
deriving DecidableEq

/-- Which alert/branch the submit handler took. -/
inductive CheckoutResult where
  | noUser
  | invalidToken
  | validationFailed
  | emptyCart
  | placed (order : Order)
deriving DecidableEq

/-- The checkout form submit listener, branch for branch: falsy guard on
`currentUser` (absent or the empty string both return early); token check
(`!formToken || formToken !== csrfToken`, with a token regeneration on
failure); `checkValidity`; empty-join check; then order construction,
`saveOrder`, `clearCart` and token regeneration. -/
def checkoutSubmit (inp : CheckoutInput) (s : AppState) :
    CheckoutResult × AppState :=
  match s.currentUser with
  | none => (.noUser, s)
  | some u =>
      if u = "" then (.noUser, s)
      else if inp.formToken = "" ∨ inp.formToken ≠ s.csrfToken then
        (.invalidToken, { s with csrfToken := inp.freshToken })
      else if !inp.formValid then
        (.validationFailed, s)
      else
        let t := cartTotals s.cart
        if t.items.isEmpty then
          (.emptyCart, s)
        else
          let order : Order :=
            { id := inp.orderId
              createdAt := inp.nowMs
              total := t.subtotal
              items := t.items.map fun it => ⟨it.id, it.name, it.qty, it.price⟩
              shipping :=
                ⟨sanitizeInput inp.shipName, sanitizeInput inp.shipAddress,
                 sanitizeInput inp.shipCity, sanitizeInput inp.shipZip,
                 sanitizeInput inp.shipPhone⟩ }
          let s1 := clearCart (saveOrder order s)
          (.placed order, { s1 with csrfToken := inp.freshToken })

/-! ### Event-level operation sequences -/

/-- A cart-mutating UI event (`addToCart` from the grid, `updateCartItem`
with `+1`/`-1` from the cart rows; the claims allow arbitrary `Int` deltas). -/
inductive CartOp where
  | add (productId : String)
  | upd (productId : String) (delta : Int)

/-- Apply one cart operation. -/
def applyCartOp (cart : Cart) : CartOp → Cart
  | .add productId => addToCart productId cart
  | .upd productId delta => updateCartItem productId delta cart

/-- Apply a finite sequence of cart operations, oldest first. -/
def applyCartOps (cart : Cart) : List CartOp → Cart
  | [] => cart
  | op :: ops => applyCartOps (applyCartOp cart op) ops

/-- An auth-related UI event: the register form (which calls `setCurrentUser`
after a successful `registerUser`), the login form, and the logout button. -/
inductive AuthOp where
  | reg (email password : String)
  | login (email password : String)
  | logout

/-- Apply one auth event as the corresponding listener does, swallowing
thrown errors like the listeners' `catch` blocks. -/
def applyAuthOp (s : AppState) : AuthOp → AppState
  | .reg email password =>
      match registerUser email password s with
      | (.ok _, s2) => setCurrentUser (normalizeEmail email) s2
      | (.error _, s2) => s2
  | .login email password => (loginUser email password s).2
  | .logout => logoutUser s

/-- Apply a finite sequence of auth events, oldest first. -/
def applyAuthOps (s : AppState) : List AuthOp → AppState
  | [] => s
  | op :: ops => applyAuthOps (applyAuthOp s op) ops

/-! ### Storage adapter (`safeParse` / `loadState` / `saveState`)

`localStorage` is a string-keyed map of strings; `JSON.stringify` and
`JSON.parse` are host built-ins outside this repository.  They are modelled
by their contract: a structured `Json` value; a stored cell either holds the
serialization of such a value (`ser v`, on which `JSON.parse` succeeds and
returns `v`) or text on which `JSON.parse` throws (`corrupt raw`).  The
repository's own logic — the absent-key fallback in `loadState` and the
catch-and-fallback in `safeParse` — is embedded branch for branch.  All
functions are total, so no error ever reaches a caller. -/

/-- A JSON-serializable value (numbers restricted to the integers the app
stores). -/
inductive Json where
  | null
  | bool (b : Bool)
  | num (n : Int)
  | str (s : String)
  | arr (elems : List Json)
  | obj (fields : List (String × Json))

/-- The raw text in one `localStorage` cell, seen through the contract
of `JSON.parse`: either the serialization of a value, or unparseable text. -/
inductive StoredRaw where
  | ser (v : Json)
  | corrupt (raw : String)

/-- The whole `localStorage` area. -/
abbrev Store := List (String × StoredRaw)

/-- JS `safeParse`: `JSON.parse` inside `try`, returning `fallback` from the
`catch`. -/
def safeParse (raw : StoredRaw) (fallback : Json) : Json :=
  match raw with
  | .ser v => v
  | .corrupt _ => fallback

/-- JS `loadState`: `fallback` when `getItem` yields nothing, else `safeParse`.
(A stored empty string is falsy in JS and also unparseable, so both routes
to `fallback` coincide.) -/
def loadState (key : String) (fallback : Json) (store : Store) : Json :=
  match getKey key store with
  | none => fallback
  | some raw => safeParse raw fallback

/-- JS `saveState`: `setItem(key, JSON.stringify(value))`, overwriting. -/
def saveState (key : String) (value : Json) (store : Store) : Store :=
  setKey key (.ser value) store

/-! ### Supporting lemmas about the cart join -/

theorem foldl_add_lineTotal (l : List CartItem) (a : Int) :
    l.foldl (fun sum item => sum + item.lineTotal) a =
      a + (l.map (fun item => item.lineTotal)).sum := by
  induction l generalizing a with
  | nil => simp
  | cons it rest ih => simp [ih, add_assoc]

theorem cartTotals_items_eq (cart : Cart) :
    (cartTotals cart).items = cartItemsWithDetails cart := rfl

theorem cartTotals_subtotal_eq_sum (cart : Cart) :
    (cartTotals cart).subtotal =
      ((cartTotals cart).items.map (fun item => item.lineTotal)).sum := by
  simp [cartTotals, foldl_add_lineTotal]

theorem mem_cartItemsWithDetails (cart : Cart) (it : CartItem)
    (h : it ∈ cartItemsWithDetails cart) :
    ∃ e ∈ cart, ∃ p, PRODUCTS.find? (fun p => p.id == e.1) = some p ∧
      it = ⟨p.id, p.name, p.category, p.price, e.2, (p.price : Int) * e.2⟩ := by
  rw [cartItemsWithDetails, List.mem_filterMap] at h
  obtain ⟨e, he, hfe⟩ := h
  refine ⟨e, he, ?_⟩
  cases hp : PRODUCTS.find? (fun p => p.id == e.1) with
  | none => rw [hp] at hfe; exact absurd hfe (by simp)
  | some p =>
      rw [hp] at hfe
      simp only [Option.some.injEq] at hfe
      exact ⟨p, rfl, hfe.symm⟩

theorem cartItemsWithDetails_proj (cart : Cart) :
    (cartItemsWithDetails cart).map (fun it => (it.id, it.qty)) =
      cart.filter (fun e => (PRODUCTS.find? (fun p => p.id == e.1)).isSome) := by
  induction cart with
  | nil => simp [cartItemsWithDetails]
  | cons e rest ih =>
      cases hp : PRODUCTS.find? (fun p => p.id == e.1) with
      | none => simpa [cartItemsWithDetails, List.filterMap_cons, hp] using ih
      | some p =>
          have hid : p.id = e.1 := by
            have := List.find?_some hp
            simpa using this
          simpa [cartItemsWithDetails, List.filterMap_cons, hp, hid] using ih

/-- C7: `cartTotals` returns exactly the cart entries whose product id occurs
in the fixed catalog (unknown ids silently dropped), each row carrying
`lineTotal = price * qty` and catalog data, with `subtotal` the sum of the
line totals; the cart `{p1: 2, p4: 1}` yields subtotal `9997`. -/
theorem cartTotals_join_exact :
    (∀ cart : Cart,
        ((cartTotals cart).items.map (fun it => (it.id, it.qty)) =
            cart.filter (fun e => (PRODUCTS.find? (fun p => p.id == e.1)).isSome))
      ∧ (∀ it ∈ (cartTotals cart).items,
          it.lineTotal = (it.price : Int) * it.qty ∧
            ∃ p ∈ PRODUCTS, p.id = it.id ∧ p.price = it.price ∧ p.name = it.name)
      ∧ (cartTotals cart).subtotal =
          ((cartTotals cart).items.map (fun it => it.lineTotal)).sum)
    ∧ (cartTotals [("p1", 2), ("p4", 1)]).subtotal = 9997 := by
  constructor
  · intro cart
    refine ⟨cartItemsWithDetails_proj cart, ?_, cartTotals_subtotal_eq_sum cart⟩
    intro it hit
    obtain ⟨e, _, p, hp, hitp⟩ := mem_cartItemsWithDetails cart it hit
    subst hitp
    exact ⟨rfl, p, List.mem_of_find?_eq_some hp, rfl, rfl, rfl⟩
  · decide

/-- C7 witness: the general theorem applied to the concrete cart
`{p1: 2, p4: 1}`, with the membership hypothesis discharged on its first
item. -/
theorem cartTotals_join_exact_spot :
    ((cartTotals [("p1", 2), ("p4", 1)]).items.map (fun it => (it.id, it.qty)) =
        [("p1", 2), ("p4", 1)])
    ∧ (∀ it ∈ (cartTotals [("p1", 2), ("p4", 1)]).items,
        it.lineTotal = (it.price : Int) * it.qty ∧
          ∃ p ∈ PRODUCTS, p.id = it.id ∧ p.price = it.price ∧ p.name = it.name)
    ∧ (cartTotals [("p1", 2), ("p4", 1)]).subtotal = 9997 := by
  obtain ⟨hgen, hconc⟩ := cartTotals_join_exact
  obtain ⟨hproj, hmem, _⟩ := hgen [("p1", 2), ("p4", 1)]
  exact ⟨by rw [hproj]; decide, hmem, hconc⟩

/-! ### Supporting lemmas for the cart positivity invariant -/

theorem addToCart_pos (productId : String) (cart : Cart)
    (h : ∀ e ∈ cart, 0 < e.2) : ∀ e ∈ addToCart productId cart, 0 < e.2 := by
  intro e he
  rcases mem_setKey e productId ((getKey productId cart).getD 0 + 1) cart he with
    heq | hmem
  · subst heq
    cases hg : getKey productId cart with
    | none => simp [hg]
    | some q =>
        have := h _ (getKey_mem _ _ _ hg)
        simp only [hg, Option.getD_some]
        omega
  · exact h e hmem

theorem updateCartItem_pos (productId : String) (delta : Int) (cart : Cart)
    (h : ∀ e ∈ cart, 0 < e.2) :
    ∀ e ∈ updateCartItem productId delta cart, 0 < e.2 := by
  intro e he
  cases hg : getKey productId cart with
  | none => rw [updateCartItem, hg] at he; exact h e he
  | some q =>
      simp only [updateCartItem, hg] at he
      by_cases hq : q = 0
      · rw [if_pos hq] at he; exact h e he
      · rw [if_neg hq] at he
        by_cases hle : q + delta ≤ 0
        · rw [if_pos hle] at he
          exact h e (mem_eraseKey e productId cart he)
        · rw [if_neg hle] at he
          rcases mem_setKey e productId (q + delta) cart he with heq | hmem
          · subst heq; omega
          · exact h e hmem

/-- C3: starting from a cart whose stored quantities are all strictly
positive, any finite sequence of `addToCart` / `updateCartItem` calls (with
arbitrary `Int` deltas) leaves every stored quantity strictly positive — no
entry is ever stored with quantity zero or negative. -/
theorem cart_quantities_always_positive (ops : List CartOp) (cart : Cart)
    (h : ∀ e ∈ cart, 0 < e.2) : ∀ e ∈ applyCartOps cart ops, 0 < e.2 := by
  induction ops generalizing cart with
  | nil => exact h
  | cons op ops ih =>
      cases op with
      | add productId => exact ih _ (addToCart_pos productId cart h)
      | upd productId delta => exact ih _ (updateCartItem_pos productId delta cart h)

/-- C3 witness: the invariant theorem applied to a concrete initial cart and
a concrete operation sequence, its positivity hypothesis checked by
computation. -/
theorem cart_quantities_always_positive_spot :
    (∀ e ∈ ([("p1", 1)] : Cart), 0 < e.2) ∧
      ∀ e ∈ applyCartOps [("p1", 1)]
          [CartOp.add "p2", CartOp.upd "p1" (-3), CartOp.add "p1"], 0 < e.2 :=
  ⟨by decide, cart_quantities_always_positive _ _ (by decide)⟩

/-- C4: on carts of the data model (strictly positive quantities, one entry
per key), `updateCartItem` is a no-op when the id is absent; when the id is
present with quantity `q` it removes the entry if `q + delta ≤ 0` and
otherwise stores `q + delta`, leaving every other key untouched; and
`updateCartItem "p1" (-2)` on quantity `2` removes `p1` entirely. -/
theorem updateCartItem_semantics :
    (∀ (cart : Cart) (productId : String) (delta : Int),
        (∀ e ∈ cart, 0 < e.2) → (cart.map Prod.fst).Nodup →
        (getKey productId cart = none → updateCartItem productId delta cart = cart)
      ∧ (∀ q, getKey productId cart = some q →
          (q + delta ≤ 0 →
              getKey productId (updateCartItem productId delta cart) = none)
          ∧ (0 < q + delta →
              getKey productId (updateCartItem productId delta cart) =
                some (q + delta))
          ∧ (∀ k, k ≠ productId →
              getKey k (updateCartItem productId delta cart) = getKey k cart)))
    ∧ updateCartItem "p1" (-2) [("p1", 2)] = [] := by
  constructor
  · intro cart productId delta hpos hnd
    constructor
    · intro hg; rw [updateCartItem, hg]
    · intro q hg
      have hq : q ≠ 0 := by
        have := hpos _ (getKey_mem _ _ _ hg)
        simp only at this
        omega
      refine ⟨?_, ?_, ?_⟩
      · intro hle
        simp only [updateCartItem, hg]
        rw [if_neg hq, if_pos hle]
        exact getKey_eraseKey_self productId cart hnd
      · intro hgt
        simp only [updateCartItem, hg]
        rw [if_neg hq, if_neg (by omega : ¬q + delta ≤ 0)]
        simp [getKey_setKey]
      · intro k hk
        simp only [updateCartItem, hg]
        rw [if_neg hq]
        by_cases hle : q + delta ≤ 0
        · rw [if_pos hle]
          exact getKey_eraseKey_ne productId k cart hk
        · rw [if_neg hle, getKey_setKey, if_neg (fun hh => hk hh.symm)]
  · decide

/-- C4 witness: the semantics theorem applied to the concrete cart
`{p1: 2}` with delta `-2`, hypotheses checked by computation. -/
theorem updateCartItem_semantics_spot :
    getKey "p1" (updateCartItem "p1" (-2) [("p1", 2)]) = none ∧
      getKey "p2" (updateCartItem "p1" (-2) [("p1", 2)]) = getKey "p2" [("p1", 2)] := by
  have h := (updateCartItem_semantics.1 [("p1", 2)] "p1" (-2) (by decide)
    (by decide)).2 2 (by decide)
  exact ⟨h.1 (by decide), h.2.2 "p2" (by decide)⟩

/-! ### Auth claims -/

theorem registerUser_ok_users (s : AppState) (e p : String) (s2 : AppState)
    (hreg : registerUser e p s = (Except.ok (), s2)) :
    getKey (normalizeEmail e) s.users = none ∧
      s2 = { s with
        users := setKey (normalizeEmail e) (hashString p) s.users,
        storedUsers := setKey (normalizeEmail e) (hashString p) s.users } := by
  cases hm : getKey (normalizeEmail e) s.users with
  | some v => simp [registerUser, hm] at hreg
  | none =>
      refine ⟨rfl, ?_⟩
      have h2 := congrArg Prod.snd hreg
      simp only [registerUser, hm] at h2
      exact h2.symm

/-- C5: a successful `registerUser e p` is followed by a succeeding
`loginUser e p` that sets the current user to the normalized email; after it,
`loginUser e p2` fails with `InvalidCredentials` (and changes nothing) for
every `p2` whose digest differs from the stored hash, and `loginUser` on an
unregistered normalized email fails with `InvalidCredentials`. -/
theorem register_login_roundtrip :
    (∀ (s : AppState) (e p : String) (s2 : AppState),
        registerUser e p s = (Except.ok (), s2) →
          ((loginUser e p s2).1 = Except.ok () ∧
            (loginUser e p s2).2.currentUser = some (normalizeEmail e))
        ∧ (∀ p2, hashString p2 ≠ hashString p →
            loginUser e p2 s2 = (Except.error AuthError.invalidCredentials, s2)))
    ∧ (∀ (s : AppState) (e p : String),
        getKey (normalizeEmail e) s.users = none →
          loginUser e p s = (Except.error AuthError.invalidCredentials, s)) := by
  constructor
  · intro s e p s2 hreg
    obtain ⟨-, hs2⟩ := registerUser_ok_users s e p s2 hreg
    have husers : getKey (normalizeEmail e) s2.users = some (hashString p) := by
      rw [hs2]
      simp [getKey_setKey]
    constructor
    · constructor
      · simp [loginUser, husers]
      · simp [loginUser, husers, setCurrentUser]
    · intro p2 hp2
      simp [loginUser, husers, hp2]
  · intro s e p hnone
    simp [loginUser, hnone]

/-- C5 witness: register then login on a fresh state, wrong-password and
unregistered-email failures included, all hypotheses evaluated on concrete
strings (`hashString "zz" ≠ hashString "pw"` holds by computation). -/
theorem register_login_roundtrip_spot :
    ((loginUser "a@b.c" "pw"
        (registerUser "a@b.c" "pw" ⟨[], none, [], "t", [], none, [], []⟩).2).1 =
      Except.ok ())
    ∧ ((loginUser "a@b.c" "pw"
        (registerUser "a@b.c" "pw" ⟨[], none, [], "t", [], none, [], []⟩).2).2.currentUser =
      some "a@b.c")
    ∧ (loginUser "a@b.c" "zz"
        (registerUser "a@b.c" "pw" ⟨[], none, [], "t", [], none, [], []⟩).2 =
      (Except.error AuthError.invalidCredentials,
        (registerUser "a@b.c" "pw" ⟨[], none, [], "t", [], none, [], []⟩).2))
    ∧ (loginUser "nobody@x.y" "pw" ⟨[], none, [], "t", [], none, [], []⟩ =
      (Except.error AuthError.invalidCredentials,
        ⟨[], none, [], "t", [], none, [], []⟩)) := by
  have h := register_login_roundtrip.1 ⟨[], none, [], "t", [], none, [], []⟩
    "a@b.c" "pw" (registerUser "a@b.c" "pw" ⟨[], none, [], "t", [], none, [], []⟩).2 rfl
  have h2 := register_login_roundtrip.2 ⟨[], none, [], "t", [], none, [], []⟩
    "nobody@x.y" "pw" (by decide)
  refine ⟨h.1.1, ?_, h.2 "zz" (by decide), h2⟩
  have := h.1.2
  rwa [show normalizeEmail "a@b.c" = "a@b.c" by decide] at this

/-- Applying one auth event never removes a user record. -/
theorem users_monotone_op (s : AppState) (op : AuthOp) (k : String)
    (h : (getKey k s.users).isSome) : (getKey k (applyAuthOp s op).users).isSome := by
  cases op with
  | reg e p =>
      cases hm : getKey (normalizeEmail e) s.users with
      | some v => simpa [applyAuthOp, registerUser, hm] using h
      | none =>
          simp only [applyAuthOp, registerUser, hm]
          simp only [setCurrentUser]
          rw [getKey_setKey]
          by_cases hk : normalizeEmail e = k <;> simp [hk, h]
  | login e p =>
      cases hm : getKey (normalizeEmail e) s.users with
      | none => simpa [applyAuthOp, loginUser, hm] using h
      | some v =>
          by_cases hh : hashString p = v <;>
            simpa [applyAuthOp, loginUser, hm, hh, setCurrentUser] using h
  | logout => simpa [applyAuthOp, logoutUser] using h

theorem users_monotone_ops (s : AppState) (ops : List AuthOp) (k : String)
    (h : (getKey k s.users).isSome) :
    (getKey k (applyAuthOps s ops).users).isSome := by
  induction ops generalizing s with
  | nil => exact h
  | cons op ops ih => exact ih _ (users_monotone_op s op k h)

/-- C6: once `registerUser e1 p1` has succeeded, every later
`registerUser e2 p2` with the same normalized email fails with
`DuplicateUser`, whatever auth events (register, login, logout) happen in
between and whatever the passwords are. -/
theorem duplicate_registration_always_fails :
    ∀ (s : AppState) (e1 p1 : String) (s2 : AppState) (ops : List AuthOp)
      (e2 p2 : String),
      registerUser e1 p1 s = (Except.ok (), s2) →
      normalizeEmail e2 = normalizeEmail e1 →
      (registerUser e2 p2 (applyAuthOps s2 ops)).1 =
        Except.error AuthError.duplicateUser := by
  intro s e1 p1 s2 ops e2 p2 hreg hnorm
  obtain ⟨-, hs2⟩ := registerUser_ok_users s e1 p1 s2 hreg
  have hself : (getKey (normalizeEmail e1) s2.users).isSome := by
    rw [hs2]
    simp [getKey_setKey]
  have hafter := users_monotone_ops s2 ops (normalizeEmail e1) hself
  cases hv : getKey (normalizeEmail e1) (applyAuthOps s2 ops).users with
  | none => rw [hv] at hafter; exact absurd hafter (by simp)
  | some v2 => simp [registerUser, hnorm, hv]

/-- C6 witness: register `x@y.z`, run a logout and a foreign registration in
between, then register ` X@Y.Z ` (same email up to trim and case), which
fails with `DuplicateUser`. -/
theorem duplicate_registration_always_fails_spot :
    (registerUser " X@Y.Z " "other"
        (applyAuthOps
          (registerUser "x@y.z" "pw" ⟨[], none, [], "t", [], none, [], []⟩).2
          [AuthOp.logout, AuthOp.reg "w@w.w" "q"])).1 =
      Except.error AuthError.duplicateUser :=
  duplicate_registration_always_fails ⟨[], none, [], "t", [], none, [], []⟩
    "x@y.z" "pw" _ [AuthOp.logout, AuthOp.reg "w@w.w" "q"] " X@Y.Z " "other"
    rfl (by decide)

/-- C9: when `registerUser` or `loginUser` fails, the exception is thrown
before any mutation: the whole application state — user directory, identity,
and all persisted blobs — is exactly the input state. -/
theorem auth_failure_atomic :
    ∀ (s : AppState) (e p : String) (err : AuthError),
      ((registerUser e p s).1 = Except.error err → (registerUser e p s).2 = s)
    ∧ ((loginUser e p s).1 = Except.error err → (loginUser e p s).2 = s) := by
  intro s e p err
  constructor
  · intro h
    cases hm : getKey (normalizeEmail e) s.users with
    | some v => simp [registerUser, hm]
    | none => simp [registerUser, hm] at h
  · intro h
    cases hm : getKey (normalizeEmail e) s.users with
    | none => simp [loginUser, hm]
    | some v =>
        by_cases hh : hashString p = v
        · simp [loginUser, hm, hh] at h
        · simp [loginUser, hm, hh]

/-- C9 witness: a duplicate registration and a wrong-password login against a
concrete one-user state both leave the state untouched. -/
theorem auth_failure_atomic_spot :
    ((registerUser "a@b.c" "x"
        ⟨[("a@b.c", hashString "pw")], none, [], "t",
          [("a@b.c", hashString "pw")], none, [], []⟩).2 =
      ⟨[("a@b.c", hashString "pw")], none, [], "t",
        [("a@b.c", hashString "pw")], none, [], []⟩)
    ∧ ((loginUser "a@b.c" "zz"
        ⟨[("a@b.c", hashString "pw")], none, [], "t",
          [("a@b.c", hashString "pw")], none, [], []⟩).2 =
      ⟨[("a@b.c", hashString "pw")], none, [], "t",
        [("a@b.c", hashString "pw")], none, [], []⟩) :=
  ⟨(auth_failure_atomic ⟨[("a@b.c", hashString "pw")], none, [], "t",
      [("a@b.c", hashString "pw")], none, [], []⟩ "a@b.c" "x"
      AuthError.duplicateUser).1 rfl,
   (auth_failure_atomic ⟨[("a@b.c", hashString "pw")], none, [], "t",
      [("a@b.c", hashString "pw")], none, [], []⟩ "a@b.c" "zz"
      AuthError.invalidCredentials).2 rfl⟩

/-! ### Storage claim -/

/-- C8: `saveState` then `loadState` on the same key returns the saved value
for every serializable value; on an absent key or an unparseable cell,
`loadState` returns the fallback (and, all functions being total, nothing
ever escapes to the caller). -/
theorem storage_roundtrip :
    ∀ (store : Store) (key : String) (value fallback : Json),
      loadState key fallback (saveState key value store) = value
    ∧ (getKey key store = none → loadState key fallback store = fallback)
    ∧ (∀ raw, getKey key store = some (StoredRaw.corrupt raw) →
        loadState key fallback store = fallback) := by
  intro store key value fallback
  refine ⟨?_, ?_, ?_⟩
  · rw [loadState, saveState, getKey_setKey]
    simp [safeParse]
  · intro h; rw [loadState, h]
  · intro raw h; rw [loadState, h]; rfl

/-- C8 witness: a concrete save/load round trip, a concrete miss, and a
concrete corrupted cell. -/
theorem storage_roundtrip_spot :
    loadState "secureShop.cart" Json.null
        (saveState "secureShop.cart" (Json.obj [("p1", Json.num 2)]) []) =
      Json.obj [("p1", Json.num 2)]
    ∧ loadState "secureShop.users" (Json.obj []) [] = Json.obj []
    ∧ loadState "secureShop.users" (Json.obj [])
        [("secureShop.users", StoredRaw.corrupt "not-json")] = Json.obj [] :=
  ⟨(storage_roundtrip [] "secureShop.cart" (Json.obj [("p1", Json.num 2)])
      Json.null).1,
   (storage_roundtrip [] "secureShop.users" Json.null (Json.obj [])).2.1 rfl,
   (storage_roundtrip [("secureShop.users", StoredRaw.corrupt "not-json")]
      "secureShop.users" Json.null (Json.obj [])).2.2 "not-json" rfl⟩

/-! ### Checkout claims -/

theorem isEmpty_false_of_ne_nil {l : List α} (h : l ≠ []) : l.isEmpty = false := by
  cases l with
  | nil => exact absurd rfl h
  | cons a t => rfl

/-- The order literal the submit handler builds on its success path. -/
def checkoutOrderOf (inp : CheckoutInput) (s : AppState) : Order :=
  { id := inp.orderId
    createdAt := inp.nowMs
    total := (cartTotals s.cart).subtotal
    items := (cartTotals s.cart).items.map fun it => ⟨it.id, it.name, it.qty, it.price⟩
    shipping :=
      ⟨sanitizeInput inp.shipName, sanitizeInput inp.shipAddress,
       sanitizeInput inp.shipCity, sanitizeInput inp.shipZip,
       sanitizeInput inp.shipPhone⟩ }

/-- Exhaustive description of the submit handler: exactly one of the five
branches runs, each with its guard conditions and its exact result state.
The no-user branch fires on the falsy guard, i.e. when the identity is
absent or the empty string. -/
theorem checkoutSubmit_cases (inp : CheckoutInput) (s : AppState) :
    ((s.currentUser = none ∨ s.currentUser = some "") ∧
        checkoutSubmit inp s = (CheckoutResult.noUser, s))
    ∨ ((∃ u, s.currentUser = some u ∧ u ≠ "") ∧
        (inp.formToken = "" ∨ inp.formToken ≠ s.csrfToken) ∧
        checkoutSubmit inp s =
          (CheckoutResult.invalidToken, { s with csrfToken := inp.freshToken }))
    ∨ ((∃ u, s.currentUser = some u ∧ u ≠ "") ∧ inp.formToken ≠ "" ∧
        inp.formToken = s.csrfToken ∧ inp.formValid = false ∧
        checkoutSubmit inp s = (CheckoutResult.validationFailed, s))
    ∨ ((∃ u, s.currentUser = some u ∧ u ≠ "") ∧ inp.formToken ≠ "" ∧
        inp.formToken = s.csrfToken ∧ inp.formValid = true ∧
        cartItemsWithDetails s.cart = [] ∧
        checkoutSubmit inp s = (CheckoutResult.emptyCart, s))
    ∨ (∃ u, s.currentUser = some u ∧ u ≠ "" ∧ inp.formToken ≠ "" ∧
        inp.formToken = s.csrfToken ∧ inp.formValid = true ∧
        cartItemsWithDetails s.cart ≠ [] ∧
        checkoutSubmit inp s =
          (CheckoutResult.placed (checkoutOrderOf inp s),
           { s with
              storedOrders :=
                setKey u (checkoutOrderOf inp s ::
                  (getKey u s.storedOrders).getD []) s.storedOrders,
              cart := [], storedCart := [],
              csrfToken := inp.freshToken })) := by
  cases hu : s.currentUser with
  | none =>
      left
      exact ⟨Or.inl rfl, by simp [checkoutSubmit, hu]⟩
  | some u =>
      by_cases hemp : u = ""
      · left
        subst hemp
        exact ⟨Or.inr rfl, by simp [checkoutSubmit, hu]⟩
      · right
        by_cases htok : inp.formToken = "" ∨ inp.formToken ≠ s.csrfToken
        · left
          refine ⟨⟨u, rfl, hemp⟩, htok, ?_⟩
          simp only [checkoutSubmit, hu]
          rw [if_neg hemp, if_pos htok]
        · right
          push_neg at htok
          cases hv : inp.formValid with
          | false =>
              left
              refine ⟨⟨u, rfl, hemp⟩, htok.1, htok.2, rfl, ?_⟩
              simp only [checkoutSubmit, hu]
              rw [if_neg hemp, if_neg (by push_neg; exact htok)]
              simp [hv]
          | true =>
              right
              by_cases hempty : cartItemsWithDetails s.cart = []
              · left
                refine ⟨⟨u, rfl, hemp⟩, htok.1, htok.2, rfl, hempty, ?_⟩
                simp only [checkoutSubmit, hu]
                rw [if_neg hemp, if_neg (by push_neg; exact htok)]
                have hie : (cartTotals s.cart).items.isEmpty = true := by
                  rw [cartTotals_items_eq, hempty]
                  rfl
                simp [hv, hie]
              · right
                refine ⟨u, rfl, hemp, htok.1, htok.2, rfl, hempty, ?_⟩
                simp only [checkoutSubmit, hu]
                rw [if_neg hemp, if_neg (by push_neg; exact htok)]
                have hie : (cartTotals s.cart).items.isEmpty = false := by
                  rw [cartTotals_items_eq]
                  exact isEmpty_false_of_ne_nil hempty
                simp only [hv, Bool.not_true, if_false, hie, cond_false]
                simp [saveOrder, clearCart, hu, hemp, checkoutOrderOf]

/-- C1: with a logged-in identity (present and, `!currentUser` being a falsy
check, non-empty), a submitted token that is non-empty and equal to the
expected one, passing form validation, and a non-empty catalog join, the
handler places exactly one order — prepended to the current user's stored
order list, all other users' lists untouched — and empties the cart (in
memory and in storage); if any of these preconditions fails (including the
empty-string identity, which the falsy guard treats as logged out), the
order mapping, the cart and its stored copy are unchanged and no order is
placed. -/
theorem checkout_places_order_iff_preconditions :
    ∀ (inp : CheckoutInput) (s : AppState),
      (∀ u, s.currentUser = some u → u ≠ "" → inp.formToken ≠ "" →
        inp.formToken = s.csrfToken → inp.formValid = true →
        cartItemsWithDetails s.cart ≠ [] →
        ∃ o, (checkoutSubmit inp s).1 = CheckoutResult.placed o
          ∧ getKey u (checkoutSubmit inp s).2.storedOrders =
              some (o :: (getKey u s.storedOrders).getD [])
          ∧ (∀ k, k ≠ u →
              getKey k (checkoutSubmit inp s).2.storedOrders =
                getKey k s.storedOrders)
          ∧ (checkoutSubmit inp s).2.cart = []
          ∧ (checkoutSubmit inp s).2.storedCart = [])
      ∧ ((s.currentUser = none ∨ s.currentUser = some "" ∨
          inp.formToken = "" ∨ inp.formToken ≠ s.csrfToken ∨
          inp.formValid = false ∨ cartItemsWithDetails s.cart = []) →
          (checkoutSubmit inp s).2.storedOrders = s.storedOrders
          ∧ (checkoutSubmit inp s).2.cart = s.cart
          ∧ (checkoutSubmit inp s).2.storedCart = s.storedCart
          ∧ ∀ o, (checkoutSubmit inp s).1 ≠ CheckoutResult.placed o) := by
  intro inp s
  rcases checkoutSubmit_cases inp s with
    ⟨hid, heq⟩ | ⟨hlog, htok, heq⟩ | ⟨hlog, ht1, ht2, hv, heq⟩ |
    ⟨hlog, ht1, ht2, hv, hempty, heq⟩ | ⟨u, hu, hune, ht1, ht2, hv, hne, heq⟩
  · constructor
    · intro u hsome hne
      rcases hid with h | h
      · rw [h] at hsome; exact absurd hsome (by simp)
      · rw [h] at hsome
        exact absurd (Option.some.inj hsome).symm hne
    · intro _; rw [heq]; exact ⟨rfl, rfl, rfl, by simp⟩
  · constructor
    · intro u hsome hne h1 h2
      rcases htok with h | h
      · exact absurd h1 (by simp [h])
      · exact absurd h2 h
    · intro _; rw [heq]; exact ⟨rfl, rfl, rfl, by simp⟩
  · constructor
    · intro u hsome hne h1 h2 h3
      rw [hv] at h3; exact absurd h3 (by simp)
    · intro _; rw [heq]; exact ⟨rfl, rfl, rfl, by simp⟩
  · constructor
    · intro u hsome hne h1 h2 h3 h4; exact absurd hempty h4
    · intro _; rw [heq]; exact ⟨rfl, rfl, rfl, by simp⟩
  · constructor
    · intro u2 hsome hne2 h1 h2 h3 h4
      have huu : u2 = u := by rw [hu] at hsome; exact (Option.some.injEq ..).mp hsome.symm
      subst huu
      refine ⟨checkoutOrderOf inp s, ?_, ?_, ?_, ?_, ?_⟩ <;> rw [heq]
      · simp [getKey_setKey]
      · intro k hk
        simp only [getKey_setKey]
        rw [if_neg (fun hh => hk hh.symm)]
    · intro hfail
      rcases hfail with h | h | h | h | h | h
      · rw [hu] at h; exact absurd h (by simp)
      · rw [hu] at h; exact absurd (Option.some.inj h) hune
      · exact absurd h ht1
      · exact absurd ht2 h
      · rw [hv] at h; exact absurd h (by simp)
      · exact absurd h hne

/-- C1 witness: the theorem applied to a concrete logged-in state with cart
`{p1: 2}` and a matching token; the order lands as the single element of the
user's list and the cart is emptied. -/
theorem checkout_places_order_iff_preconditions_spot :
    ((checkoutSubmit ⟨"tok", true, "N", "A", "C", "Z", "P", 7, 123, "fresh"⟩
        ⟨[], some "u@x", [("p1", 2)], "tok", [], some "u@x", [("p1", 2)], []⟩).2.cart = [])
    ∧ (∃ o, (checkoutSubmit ⟨"tok", true, "N", "A", "C", "Z", "P", 7, 123, "fresh"⟩
        ⟨[], some "u@x", [("p1", 2)], "tok", [], some "u@x", [("p1", 2)], []⟩).1 =
          CheckoutResult.placed o
        ∧ getKey "u@x" (checkoutSubmit ⟨"tok", true, "N", "A", "C", "Z", "P", 7, 123, "fresh"⟩
            ⟨[], some "u@x", [("p1", 2)], "tok", [], some "u@x", [("p1", 2)], []⟩).2.storedOrders =
          some [o]) := by
  obtain ⟨o, h1, h2, h3, h4, h5⟩ :=
    (checkout_places_order_iff_preconditions
      ⟨"tok", true, "N", "A", "C", "Z", "P", 7, 123, "fresh"⟩
      ⟨[], some "u@x", [("p1", 2)], "tok", [], some "u@x", [("p1", 2)], []⟩).1
      "u@x" rfl (by decide) (by decide) rfl rfl (by decide)
  exact ⟨h4, o, h1, h2⟩

/-- C10: every order returned on the `placed` path satisfies
`total = Σ price * qty` over its items; every item comes from the fixed
catalog with the catalog's price and name, and its quantity is the cart
entry for that id at submission time. -/
theorem placed_order_self_consistent :
    ∀ (inp : CheckoutInput) (s : AppState) (o : Order),
      (checkoutSubmit inp s).1 = CheckoutResult.placed o →
        o.total = (o.items.map fun it => (it.price : Int) * it.qty).sum
      ∧ ∀ it ∈ o.items,
          (∃ p ∈ PRODUCTS, p.id = it.id ∧ p.name = it.name ∧ p.price = it.price)
          ∧ (it.id, it.qty) ∈ s.cart := by
  intro inp s o hplaced
  rcases checkoutSubmit_cases inp s with
    ⟨hid, heq⟩ | ⟨hlog, htok, heq⟩ | ⟨hlog, ht1, ht2, hv, heq⟩ |
    ⟨hlog, ht1, ht2, hv, hempty, heq⟩ | ⟨u, hu, hune, ht1, ht2, hv, hne, heq⟩ <;>
    rw [heq] at hplaced <;> simp only at hplaced
  · exact absurd hplaced (by simp)
  · exact absurd hplaced (by simp)
  · exact absurd hplaced (by simp)
  · exact absurd hplaced (by simp)
  · have ho : o = checkoutOrderOf inp s := by
      simpa using hplaced.symm
    subst ho
    constructor
    · show (cartTotals s.cart).subtotal = _
      rw [cartTotals_subtotal_eq_sum]
      show _ = (((cartTotals s.cart).items.map
        (fun it => (⟨it.id, it.name, it.qty, it.price⟩ : OrderItem))).map
          fun it => (it.price : Int) * it.qty).sum
      rw [List.map_map]
      refine congrArg List.sum (List.map_congr_left ?_)
      intro it hit
      obtain ⟨e, he, p, hp, hitp⟩ :=
        mem_cartItemsWithDetails s.cart it (by rwa [cartTotals_items_eq] at hit)
      subst hitp
      rfl
    · intro it hit
      simp only [checkoutOrderOf, List.mem_map] at hit
      obtain ⟨it0, hit0, hproj⟩ := hit
      obtain ⟨e, he, p, hp, hitp⟩ :=
        mem_cartItemsWithDetails s.cart it0 (by rwa [cartTotals_items_eq] at hit0)
      have hid : p.id = e.1 := by
        have := List.find?_some hp
        simpa using this
      subst hproj
      subst hitp
      refine ⟨⟨p, List.mem_of_find?_eq_some hp, rfl, rfl, rfl⟩, ?_⟩
      show (p.id, e.2) ∈ s.cart
      rw [hid]
      exact he

/-- C10 witness: the total-consistency fact for the concrete placed order of
a checkout from cart `{p1: 2, p4: 1}`. -/
theorem placed_order_self_consistent_spot :
    (checkoutOrderOf ⟨"tok", true, "N", "A", "C", "Z", "P", 7, 123, "f2"⟩
        ⟨[], some "u@x", [("p1", 2), ("p4", 1)], "tok", [], some "u@x",
          [("p1", 2), ("p4", 1)], []⟩).total =
      ((checkoutOrderOf ⟨"tok", true, "N", "A", "C", "Z", "P", 7, 123, "f2"⟩
        ⟨[], some "u@x", [("p1", 2), ("p4", 1)], "tok", [], some "u@x",
          [("p1", 2), ("p4", 1)], []⟩).items.map
        fun it => (it.price : Int) * it.qty).sum := by
  have h := placed_order_self_consistent
    ⟨"tok", true, "N", "A", "C", "Z", "P", 7, 123, "f2"⟩
    ⟨[], some "u@x", [("p1", 2), ("p4", 1)], "tok", [], some "u@x",
      [("p1", 2), ("p4", 1)], []⟩
    (checkoutOrderOf ⟨"tok", true, "N", "A", "C", "Z", "P", 7, 123, "f2"⟩
      ⟨[], some "u@x", [("p1", 2), ("p4", 1)], "tok", [], some "u@x",
        [("p1", 2), ("p4", 1)], []⟩)
    (by decide)
  exact h.1

/-- C2 counterexample: a logged-in user submits the currently expected token
`"tok"` but form validation fails; the handler returns without regenerating,
so the expected token after this submission attempt still equals `"tok"` even
though the generator stood ready to produce the different value `"fresh"` —
the claim that every attempt regenerates the token is false here. -/
theorem csrf_stale_after_validation_failure :
    (checkoutSubmit ⟨"tok", false, "", "", "", "", "", 0, 0, "fresh"⟩
        ⟨[], some "u@x.y", [("p1", 1)], "tok", [], some "u@x.y", [("p1", 1)], []⟩).1 =
      CheckoutResult.validationFailed
    ∧ (checkoutSubmit ⟨"tok", false, "", "", "", "", "", 0, 0, "fresh"⟩
        ⟨[], some "u@x.y", [("p1", 1)], "tok", [], some "u@x.y", [("p1", 1)], []⟩).2.csrfToken =
      "tok"
    ∧ "fresh" ≠ "tok" := by
  refine ⟨rfl, rfl, by decide⟩

/-- C2 (amended): the expected token is replaced by the freshly generated
value exactly on the token-mismatch path and on the success path (so it then
differs from the start-of-attempt token whenever the generated value
differs); the no-identity, form-validation-failure and empty-cart paths
return early and leave the expected token unchanged. -/
theorem csrf_regeneration_exact :
    ∀ (inp : CheckoutInput) (s : AppState),
      inp.freshToken ≠ s.csrfToken →
      ((((checkoutSubmit inp s).1 = CheckoutResult.invalidToken ∨
          (∃ o, (checkoutSubmit inp s).1 = CheckoutResult.placed o)) →
          (checkoutSubmit inp s).2.csrfToken = inp.freshToken
          ∧ (checkoutSubmit inp s).2.csrfToken ≠ s.csrfToken)
      ∧ (((checkoutSubmit inp s).1 = CheckoutResult.noUser ∨
          (checkoutSubmit inp s).1 = CheckoutResult.validationFailed ∨
          (checkoutSubmit inp s).1 = CheckoutResult.emptyCart) →
          (checkoutSubmit inp s).2.csrfToken = s.csrfToken)) := by
  intro inp s hfresh
  rcases checkoutSubmit_cases inp s with
    ⟨hid, heq⟩ | ⟨hlog, htok, heq⟩ | ⟨hlog, ht1, ht2, hv, heq⟩ |
    ⟨hlog, ht1, ht2, hv, hempty, heq⟩ | ⟨u, hu, hune, ht1, ht2, hv, hne, heq⟩ <;>
    rw [heq] <;> constructor
  · rintro (h | ⟨o, h⟩) <;> exact absurd h (by simp)
  · intro _; rfl
  · intro _; exact ⟨rfl, hfresh⟩
  · rintro (h | h | h) <;> exact absurd h (by simp)
  · rintro (h | ⟨o, h⟩) <;> exact absurd h (by simp)
  · intro _; rfl
  · rintro (h | ⟨o, h⟩) <;> exact absurd h (by simp)
  · intro _; rfl
  · intro _; exact ⟨rfl, hfresh⟩
  · rintro (h | h | h) <;> exact absurd h (by simp)

/-- C2 witness: the amended theorem applied to a concrete mismatched-token
submission (regeneration) and to the concrete validation-failure submission
(no regeneration). -/
theorem csrf_regeneration_exact_spot :
    ((checkoutSubmit ⟨"bad", true, "", "", "", "", "", 0, 0, "fresh"⟩
        ⟨[], some "u", [], "tok", [], some "u", [], []⟩).2.csrfToken = "fresh")
    ∧ ((checkoutSubmit ⟨"bad", true, "", "", "", "", "", 0, 0, "fresh"⟩
        ⟨[], some "u", [], "tok", [], some "u", [], []⟩).2.csrfToken ≠ "tok") := by
  have h := (csrf_regeneration_exact
    ⟨"bad", true, "", "", "", "", "", 0, 0, "fresh"⟩
    ⟨[], some "u", [], "tok", [], some "u", [], []⟩ (by decide)).1
    (Or.inl rfl)
  exact h

end SecureShop
